import Mathlib

/-!
Verification model of the ai-chat-bridge-ocr repository.

The Python sources are shallowly embedded as executable Lean functions:
* `src/core/auto_typer.py`      → `cleanMessage`, `canUseClipboard`, `typeMessage`
* `src/core/ocr_processor.py`   → `extractWithEasyocr`, `extractWithTesseract`,
                                  `postProcessText`, `extractText`
* `src/core/conversation_manager.py` → `addMessage`
* `src/gui/main_window.py`      → `hasMeaningfulChange`, `extractLatestReply`,
                                  `waitForNewMessage`, `bridgeIter`, `bridgeRun`

Strings are modelled over Lean `Char` lists (Unicode code points, matching
Python `str` indexing and slicing).  Python whitespace and lowercasing are
modelled on the ASCII range, which covers every character the embedded code
treats specially.
-/

namespace ChatBridge

/-- ASCII approximation of Python `str.strip()` / regex `\s` whitespace:
space, tab, newline, carriage return, vertical tab, form feed. -/
def pyIsSpace (c : Char) : Bool :=
  c = ' ' || c = '\t' || c = '\n' || c = '\r' || c = Char.ofNat 11 || c = Char.ofNat 12

/-- Python `str.strip()`: remove leading and trailing whitespace. -/
def pyStrip (s : String) : String :=
  String.mk (((s.data.dropWhile pyIsSpace).reverse.dropWhile pyIsSpace).reverse)

/-- ASCII lowercasing of one character (Python `str.lower()` restricted to
the ASCII letters, which is all the denylist matching needs). -/
def asciiLower (c : Char) : Char :=
  if 'A' ≤ c ∧ c ≤ 'Z' then Char.ofNat (c.toNat + 32) else c

/-- Python `str.lower()` on a string (ASCII range). -/
def pyLower (s : String) : String :=
  String.mk (s.data.map asciiLower)

/-- Helper for `str.split('\n')`: accumulate the current line (reversed). -/
def splitNlAux : List Char → List Char → List String
  | [], acc => [String.mk acc.reverse]
  | c :: r, acc =>
    if c = '\n' then String.mk acc.reverse :: splitNlAux r []
    else splitNlAux r (c :: acc)

/-- Python `str.split('\n')`. -/
def pySplitNl (s : String) : List String :=
  splitNlAux s.data []

/-- Number of whitespace-delimited tokens, as counted by Python
`len(s.split())`; the boolean flag records being inside a token. -/
def tokenCountAux : List Char → Bool → Nat
  | [], _ => 0
  | c :: r, inTok =>
    if pyIsSpace c then tokenCountAux r false
    else (if inTok then 0 else 1) + tokenCountAux r true

/-- Python `len(s.split())`. -/
def pyTokenCount (s : String) : Nat :=
  tokenCountAux s.data false

/-- Python `s.isdigit()` (ASCII digits). -/
def pyIsDigitStr (s : String) : Bool :=
  s.data ≠ [] && s.data.all Char.isDigit

/-!
## ChangeDetector — `MainWindow.has_meaningful_change`
(src/gui/main_window.py, lines 571-584)

```python
if not old_content:
    return bool(new_content and len(new_content.strip()) > 10)
old_lines = set(old_content.split('\n'))
new_lines = set(new_content.split('\n'))
new_additions = new_lines - old_lines
meaningful_additions = [line for line in new_additions if len(line.strip()) > 5]
return len(meaningful_additions) > 0
```
The set difference is modelled as a duplicate-preserving filter, which has
the same emptiness behaviour the return value depends on.
-/

def hasMeaningfulChange (old new : String) : Bool :=
  if old = "" then
    new ≠ "" && (pyStrip new).length > 10
  else
    let oldLines := pySplitNl old
    let newLines := pySplitNl new
    let newAdditions := newLines.filter (fun l => !(oldLines.contains l))
    (newAdditions.filter (fun l => (pyStrip l).length > 5)).length > 0

/-!
## TurnExtractor — `MainWindow.extract_latest_reply`
(src/gui/main_window.py, lines 586-667)
-/

/-- Python `startswith` on character lists. -/
def startsWithChars : List Char → List Char → Bool
  | [], _ => true
  | _ :: _, [] => false
  | p :: ps, c :: cs => p = c && startsWithChars ps cs

/-- Python substring test `tok in line` on character lists. -/
def containsChars (tok : List Char) : List Char → Bool
  | [] => startsWithChars tok []
  | c :: cs => startsWithChars tok (c :: cs) || containsChars tok cs

/-- Python `tok in line` on strings. -/
def strContains (line tok : String) : Bool :=
  containsChars tok.data line.data

/-- Python `line.startswith(tok)`. -/
def strStartsWith (line tok : String) : Bool :=
  startsWithChars tok.data line.data

/-- Python `line.endswith(tok)`. -/
def strEndsWith (line tok : String) : Bool :=
  startsWithChars tok.data.reverse line.data.reverse

/-- The hard-coded `filter_keywords` list of `extract_latest_reply`
(interface chrome, temporal phrases, symbols), in source order. -/
def filterKeywords : List String :=
  [ "time", "时间", "刚刚", "just now", "ago", "前", "seconds", "minutes", "hours",
    "秒", "分钟", "小时", "天", "days",
    "system", "系统", "reply", "回复", "send", "发送", "submit", "提交",
    "button", "按钮", "click", "点击", "menu", "菜单", "settings", "设置",
    "tools", "工具", "search", "搜索", "claude", "gpt", "ai",
    "typing", "正在输入", "loading", "加载", "thinking", "思考",
    "preferences", "偏好", "user", "用户", "chat", "聊天",
    "•", "○", "●", "◦", "▪", "▫", "■", "□", "▲", "△", "▼", "▽",
    "→", "←", "↑", "↓", "⏰", "🕐", "⌚", "📱", "💬", "🔄",
    "retry", "重试", "cancel", "取消", "confirm", "确认",
    "copy", "复制", "paste", "粘贴", "edit", "编辑",
    "delete", "删除", "save", "保存", "export", "导出" ]

/-- `any(keyword in line_lower for keyword in filter_keywords)`. -/
def lineHitsDenylist (line : String) : Bool :=
  filterKeywords.any (fun k => strContains (pyLower line) k)

/-- One candidate line survives all layered rejections of
`extract_latest_reply` (the body of its `for line in lines` loop). -/
def linePasses (line : String) : Bool :=
  !(lineHitsDenylist line) &&
  !(line.length < 8) &&
  !(pyIsDigitStr line || pyTokenCount line < 3) &&
  !((strContains line ":" || strContains line "-") && line.length < 20) &&
  !(strStartsWith line "http" || strStartsWith line "www" ||
    strStartsWith line "@" || strStartsWith line "#" ||
    strEndsWith line "..." || strEndsWith line "→" || strEndsWith line "←")

/-- Stable insertion for descending-by-length order: an element goes after
every element of length ≥ its own, matching Python's stable
`sort(key=len, reverse=True)`. -/
def insertByLenDesc (a : String) : List String → List String
  | [] => [a]
  | b :: r => if a.length ≤ b.length then b :: insertByLenDesc a r else a :: b :: r

/-- Python `list.sort(key=len, reverse=True)` (stable). -/
def sortByLenDesc (l : List String) : List String :=
  l.foldl (fun acc a => insertByLenDesc a acc) []

/-- The list of lines `extract_latest_reply` finally joins: the stripped
non-empty lines are filtered; with ≥ 2 survivors the two longest are kept
in original order, with 1 survivor just that line, with 0 none. -/
def extractSelectedLines (content : String) : List String :=
  let lines := ((pySplitNl content).map pyStrip).filter (fun l => l ≠ "")
  let filtered := lines.filter linePasses
  let sorted := sortByLenDesc filtered
  if 2 ≤ filtered.length then
    lines.filter (fun l => (sorted.take 2).contains l)
  else sorted

/-- `MainWindow.extract_latest_reply`: `None` for empty input or when no
line survives, otherwise the selected lines joined with newlines. -/
def extractLatestReply (content : String) : Option String :=
  if content = "" then none
  else
    match extractSelectedLines content with
    | [] => none
    | l :: ls => some (String.intercalate "\n" (l :: ls))

/-!
## Actuator — `AutoTyper` (src/core/auto_typer.py)

`_clean_message` (lines 90-108) applies, in order:
`re.sub(r'\s+', ' ', message)`, then removal of
`[\x00-\x08\x0b\x0c\x0e-\x1f\x7f]`, then truncation to
`typing.max_message_length` (default 2000) with `"..."` appended, then
`str.strip()`.
-/

/-- A character of the class `[\x00-\x08\x0b\x0c\x0e-\x1f\x7f]` that
`_clean_message` removes. -/
def isCtlChar (c : Char) : Bool :=
  c.toNat ≤ 8 || c.toNat = 11 || c.toNat = 12 ||
  (14 ≤ c.toNat && c.toNat ≤ 31) || c.toNat = 127

/-- `re.sub(r'\s+', ' ', ·)`: each maximal whitespace run becomes a single
space; the flag records being inside a run. -/
def collapseWsAux : List Char → Bool → List Char
  | [], _ => []
  | c :: r, inRun =>
    if pyIsSpace c then
      if inRun then collapseWsAux r true
      else ' ' :: collapseWsAux r true
    else c :: collapseWsAux r false

/-- `re.sub(r'\s+', ' ', s)` on a string. -/
def collapseWs (s : String) : String :=
  String.mk (collapseWsAux s.data false)

/-- `re.sub(r'[\x00-\x08\x0b\x0c\x0e-\x1f\x7f]', '', s)`. -/
def removeCtl (s : String) : String :=
  String.mk (s.data.filter (fun c => !(isCtlChar c)))

/-- `if len(message) > max_length: message = message[:max_length] + "..."`. -/
def truncateMsg (maxLen : Nat) (s : String) : String :=
  if maxLen < s.length then String.mk (s.data.take maxLen) ++ "..." else s

/-- `AutoTyper._clean_message` with `typing.max_message_length = maxLen`
(config default 2000). -/
def cleanMessage (maxLen : Nat) (m : String) : String :=
  pyStrip (truncateMsg maxLen (removeCtl (collapseWs m)))

/-- The `special_keys` mapping's keys: newline, tab, backspace — the
characters whose presence forbids the clipboard path. -/
def specialKeyChars : List Char :=
  ['\n', '\t', Char.ofNat 8]

/-- Number of characters in `[一-鿿]` (`re.findall` count). -/
def chineseCount (m : String) : Nat :=
  (m.data.filter (fun c => 0x4e00 ≤ c.toNat && c.toNat ≤ 0x9fff)).length

/-- `AutoTyper._can_use_clipboard`.  Python compares
`chinese_chars > len(message) * 0.3` with a float product; for these
magnitudes the comparison coincides exactly with the integer comparison
`10 * chinese_chars > 3 * len(message)` used here. -/
def canUseClipboard (m : String) : Bool :=
  if m.length < 20 then false
  else if m.data.any (fun c => specialKeyChars.contains c) then false
  else if 3 * m.length < 10 * chineseCount m then true
  else if 100 < m.length then true
  else false

/-- Delivery mode chosen by `type_message`. -/
inductive Mode
  | clipboard
  | perChar
deriving DecidableEq, Repr

/-- Observable outcome of one `AutoTyper.type_message` call:
whether it returned `True`, whether the focus-click stage was reached,
which delivery mode ran, and the exact text it injected (on success). -/
structure TypeOut where
  success : Bool
  focusTried : Bool
  mode : Option Mode
  injected : Option String
deriving DecidableEq, Repr

/-- `AutoTyper.type_message` (lines 43-88).  The interaction with the OS
is abstracted by two oracles: `clickOk` — some click position activates
the input focus (`_click_target_region` returns `True`); `injectOk` — the
chosen injection method returns `True` (each method catches its own
exceptions and returns a bool, so no exception escapes). -/
def typeMessage (useClip : Bool) (maxLen : Nat) (clickOk injectOk : Bool)
    (message : String) : TypeOut :=
  if pyStrip message = "" then ⟨false, false, none, none⟩
  else
    let cleaned := cleanMessage maxLen message
    if clickOk then
      let mode := if useClip && canUseClipboard cleaned then Mode.clipboard
                  else Mode.perChar
      if injectOk then ⟨true, true, some mode, some cleaned⟩
      else ⟨false, true, some mode, none⟩
    else ⟨false, true, none, none⟩

/-- No two adjacent characters are both whitespace. -/
def noAdjacentSpaces : List Char → Bool
  | c :: d :: r => !(pyIsSpace c && pyIsSpace d) && noAdjacentSpaces (d :: r)
  | _ => true

/-!
## TextExtractor — `OCRProcessor` (src/core/ocr_processor.py)

Engine calls are abstracted as oracles: `none` models the engine raising
(each wrapper catches its own exceptions and returns `""`), `some` its
returned data.  EasyOCR yields spans with confidences (modelled in integer
percent, so the source comparison `confidence >= threshold / 100.0` is
`threshold ≤ confidence`); Tesseract yields the full recognised text plus
a list of word confidences that the code only uses for a warning log.
The fingerprint cache only memoises results and is not modelled.
-/

/-- Characters kept by `_post_process_text`'s allow-list
`[\w\s一-鿿.,!?;:()[\]{}"'-]` (`\w` taken on the ASCII range,
CJK given explicitly as in the source). -/
def isAllowedChar (c : Char) : Bool :=
  c.isAlpha || c.isDigit || c = '_' || pyIsSpace c ||
  (0x4e00 ≤ c.toNat && c.toNat ≤ 0x9fff) ||
  [',', '.', '!', '?', ';', ':', '(', ')', '[', ']',
    Char.ofNat 123, Char.ofNat 125, '"', Char.ofNat 39, '-'].contains c

/-- `OCRProcessor._post_process_text`: collapse whitespace, drop
disallowed characters, apply `_fix_common_ocr_errors` (which returns its
input unchanged), and strip. -/
def postProcessText (text : String) : String :=
  if text = "" then ""
  else pyStrip (String.mk ((collapseWs text).data.filter isAllowedChar))

/-- `OCRProcessor._extract_with_easyocr`: keep spans whose confidence
reaches the threshold, join the surviving span texts with spaces;
`""` when the engine raises. -/
def extractWithEasyocr (thr : Nat) (res : Option (List (String × Nat))) : String :=
  match res with
  | none => ""
  | some spans =>
      String.intercalate " " ((spans.filter (fun sp => thr ≤ sp.2)).map Prod.fst)

/-- `OCRProcessor._extract_with_tesseract`: the full `image_to_string`
output, stripped; the per-word confidences drive only a logged warning;
`""` when the engine raises. -/
def extractWithTesseract : Option (String × List Int) → String
  | none => ""
  | some (text, _confs) => pyStrip text

/-- `OCRProcessor.extract_text` (lines 75-118): EasyOCR first; if its
result is blank, Tesseract when available; the outer `try` turns any
escaping error into `""`, so the function is total. -/
def extractText (easyAvail tessAvail : Bool) (thr : Nat)
    (easyRes : Option (List (String × Nat)))
    (tessRes : Option (String × List Int)) : String :=
  let text :=
    if easyAvail then
      let t := extractWithEasyocr thr easyRes
      if t ≠ "" && (pyStrip t).length > 0 then t
      else if tessAvail then extractWithTesseract tessRes
      else t
    else if tessAvail then extractWithTesseract tessRes
    else ""
  postProcessText text

/-!
## Ledger — `ConversationManager.add_message`
(src/core/conversation_manager.py, lines 124-156, 309-328)

The per-session message table is modelled as the list of stored message
hashes; `calculate_message_hash` (MD5 of the content) is modelled as an
injective fingerprint, here the content itself.
-/

/-- `ConversationManager.calculate_message_hash`, as an injective
fingerprint of the content. -/
def calculateMessageHash (content : String) : String :=
  content

/-- `ConversationManager.is_duplicate_message`: is the hash already
stored for this session? -/
def isDuplicateMessage (ledger : List String) (h : String) : Bool :=
  ledger.contains h

/-- `ConversationManager.add_message`: drop a duplicate (returning
`False`), otherwise store and return `True`. -/
def addMessage (ledger : List String) (content : String) : Bool × List String :=
  let h := calculateMessageHash content
  if isDuplicateMessage ledger h then (false, ledger)
  else (true, ledger ++ [h])

/-!
## DialogueFSM — `MainWindow._bridge_loop` / `wait_for_new_message`
(src/gui/main_window.py, lines 474-569)

One polling tick of `wait_for_new_message` is an `Option String`: `none`
when the capture yields nothing (or a step raises, which the loop body
catches and skips), `some t` the OCR text of the captured frame.  The
tick list is the window the per-turn timeout allows; an exhausted list is
the 60-second timeout, on which the Python function returns `None`.
`forwardOk` abstracts `forward_message_to_side` (delivery success).
The `is_running` stop flag is held `True`: no claim involves an external
stop.
-/

inductive Speaker
  | left
  | right
deriving DecidableEq, Repr

def flipSpeaker : Speaker → Speaker
  | .left => .right
  | .right => .left

/-- The loop-local state of `_bridge_loop`: `current_speaker`,
`last_left_content`, `last_right_content`, `conversation_turn`. -/
structure BridgeState where
  speaker : Speaker
  lastLeft : String
  lastRight : String
  turn : Nat
deriving DecidableEq, Repr

/-- The `last_*_content` compared against for the current speaker. -/
def lastContentOf (s : BridgeState) : String :=
  match s.speaker with
  | .left => s.lastLeft
  | .right => s.lastRight

/-- Record the newly observed content for the current speaker. -/
def setLast (s : BridgeState) (msg : String) : BridgeState :=
  match s.speaker with
  | .left => { s with lastLeft := msg }
  | .right => { s with lastRight := msg }

/-- `MainWindow.wait_for_new_message`: poll tick by tick; accept the
first observation that is non-empty, differs from the last content and
passes `has_meaningful_change`; `none` once the timeout window is
exhausted. -/
def waitForNewMessage (last : String) : List (Option String) → Option String
  | [] => none
  | obs :: rest =>
    match obs with
    | none => waitForNewMessage last rest
    | some cur =>
      if cur ≠ "" && cur ≠ last && hasMeaningfulChange last cur then some cur
      else waitForNewMessage last rest

/-- Environment of one `_bridge_loop` iteration. -/
structure IterEnv where
  ticks : List (Option String)
  forwardOk : Bool
deriving DecidableEq, Repr

/-- Outcome of one `_bridge_loop` iteration: successor state, whether the
loop `break`s, and the message handed to `AutoTyper.type_message` (if
delivery was invoked). -/
structure IterOut where
  state : BridgeState
  brk : Bool
  actuated : Option String
deriving DecidableEq, Repr

/-- One iteration of the `while` body of `_bridge_loop`. -/
def bridgeIter (s : BridgeState) (env : IterEnv) : IterOut :=
  match waitForNewMessage (lastContentOf s) env.ticks with
  | none => ⟨s, false, none⟩
  | some msg =>
    let s1 := setLast s msg
    match extractLatestReply msg with
    | none => ⟨s1, false, none⟩
    | some reply =>
      if env.forwardOk then
        ⟨{ s1 with speaker := flipSpeaker s.speaker, turn := s.turn + 1 },
          false, some reply⟩
      else ⟨s1, true, some reply⟩

/-- The `_bridge_loop` `while` loop over a list of iteration
environments, with the `max_turns` cap; also returns the list of all
messages handed to the Actuator, in order. -/
def bridgeRun (maxTurns : Nat) (s : BridgeState) :
    List IterEnv → BridgeState × List String
  | [] => (s, [])
  | e :: es =>
    if s.turn < maxTurns then
      let o := bridgeIter s e
      let acts := match o.actuated with
                  | some r => [r]
                  | none => []
      if o.brk then (o.state, acts)
      else
        let p := bridgeRun maxTurns o.state es
        (p.1, acts ++ p.2)
    else (s, [])

/-!
## Theorems
-/

theorem filter_not_contains_self (l : List String) :
    l.filter (fun a => !(l.contains a)) = [] := by
  apply List.filter_eq_nil_iff.mpr
  intro a ha
  simp [ha]

/-- C7: an identical re-observation never signals change:
`has_meaningful_change(x, x)` is `False` for every text `x`. -/
theorem hasMeaningfulChange_self_false (x : String) :
    hasMeaningfulChange x x = false := by
  unfold hasMeaningfulChange
  by_cases hx : x = ""
  · simp [hx]
  · simp only [hx, if_neg hx]
    rw [filter_not_contains_self]
    simp

theorem mem_insertByLenDesc {a x : String} {l : List String}
    (h : x ∈ insertByLenDesc a l) : x = a ∨ x ∈ l := by
  induction l with
  | nil => simpa [insertByLenDesc] using h
  | cons b r ih =>
    unfold insertByLenDesc at h
    by_cases hc : a.length ≤ b.length
    · simp only [if_pos hc, List.mem_cons] at h
      rcases h with h | h
      · exact Or.inr (by simp [h])
      · rcases ih h with h' | h'
        · exact Or.inl h'
        · exact Or.inr (List.mem_cons_of_mem b h')
    · simp only [if_neg hc, List.mem_cons] at h
      rcases h with h | h | h
      · exact Or.inl h
      · exact Or.inr (by simp [h])
      · exact Or.inr (List.mem_cons_of_mem b h)

theorem mem_sortByLenDesc_aux {x : String} :
    ∀ (l : List String) (acc : List String),
      x ∈ l.foldl (fun acc a => insertByLenDesc a acc) acc → x ∈ acc ∨ x ∈ l := by
  intro l
  induction l with
  | nil => intro acc h; exact Or.inl h
  | cons b r ih =>
    intro acc h
    rcases ih (insertByLenDesc b acc) h with h' | h'
    · rcases mem_insertByLenDesc h' with h'' | h''
      · exact Or.inr (by simp [h''])
      · exact Or.inl h''
    · exact Or.inr (List.mem_cons_of_mem b h')

/-- Sorting by length returns only elements of the input list. -/
theorem mem_of_mem_sortByLenDesc {x : String} {l : List String}
    (h : x ∈ sortByLenDesc l) : x ∈ l := by
  rcases mem_sortByLenDesc_aux l [] h with h' | h'
  · cases h'
  · exact h'

/-- Every line the extractor selects passed the layered line filter. -/
theorem linePasses_of_mem_extractSelectedLines {content line : String}
    (h : line ∈ extractSelectedLines content) : linePasses line = true := by
  unfold extractSelectedLines at h
  set lines := ((pySplitNl content).map pyStrip).filter (fun l => l ≠ "") with hlines
  by_cases hc : 2 ≤ (lines.filter linePasses).length
  · simp only [if_pos hc] at h
    have h2 := (List.mem_filter.mp h).2
    have h3 : line ∈ sortByLenDesc (lines.filter linePasses) := by
      exact (List.take_sublist 2 _).mem (by simpa using h2)
    exact (List.mem_filter.mp (mem_of_mem_sortByLenDesc h3)).2
  · simp only [if_neg hc] at h
    exact (List.mem_filter.mp (mem_of_mem_sortByLenDesc h)).2

/-- A line that contains a denylisted token (checked on the lowercased
line, hence in any letter case) is rejected by the layered line filter. -/
theorem linePasses_false_of_denylist {line k : String}
    (hk : k ∈ filterKeywords) (hc : strContains (pyLower line) k = true) :
    linePasses line = false := by
  have hd : lineHitsDenylist line = true := by
    unfold lineHitsDenylist
    exact List.any_eq_true.mpr ⟨k, hk, hc⟩
  unfold linePasses
  simp [hd]

/-- C8: turn extraction drops every line containing a denylisted token
regardless of the token's letter case in that line — such a line fails the
filter, and no selected line contains any denylisted token; in particular
"Typing a response now..." is excluded despite its length (≥ 8) and token
count (≥ 3), while an ordinary sentence in the same observation is kept. -/
theorem extract_drops_denylisted_lines :
    (∀ line k, k ∈ filterKeywords → strContains (pyLower line) k = true →
      linePasses line = false) ∧
    (∀ content line, line ∈ extractSelectedLines content →
      lineHitsDenylist line = false) ∧
    (8 ≤ String.length "Typing a response now..." ∧
      3 ≤ pyTokenCount "Typing a response now..." ∧
      extractLatestReply "Typing a response now...\nhello wonderful world of oranges"
        = some "hello wonderful world of oranges") := by
  refine ⟨fun line k hk hc => linePasses_false_of_denylist hk hc, ?_, ?_, ?_, ?_⟩
  · intro content line hmem
    have hp := linePasses_of_mem_extractSelectedLines hmem
    by_contra hne
    have hd : lineHitsDenylist line = true := by
      cases h : lineHitsDenylist line
      · exact absurd h hne
      · rfl
    unfold linePasses at hp
    simp [hd] at hp
  · decide
  · decide
  · decide

/-- Witness for C8 at a concrete input: "typing" is a denylisted token,
it occurs (case-insensitively) in "Typing a response now...", and the
theorem rejects that line. -/
theorem extract_drops_denylisted_lines_witness :
    ("typing" ∈ filterKeywords ∧
      strContains (pyLower "Typing a response now...") "typing" = true) ∧
    linePasses "Typing a response now..." = false :=
  ⟨⟨by decide, by decide⟩,
    extract_drops_denylisted_lines.1 "Typing a response now..." "typing"
      (by decide) (by decide)⟩

/-- C9: delivery with an empty or whitespace-only message returns `False`
at once — no focus click, no mode chosen, nothing injected. -/
theorem typeMessage_blank_returns_false
    (useClip : Bool) (maxLen : Nat) (clickOk injectOk : Bool) (m : String)
    (hm : pyStrip m = "") :
    typeMessage useClip maxLen clickOk injectOk m =
      ⟨false, false, none, none⟩ := by
  unfold typeMessage
  simp [hm]

/-- Witness for C9 at the concrete whitespace-only message `"  "`. -/
theorem typeMessage_blank_returns_false_witness :
    pyStrip "  " = "" ∧
      typeMessage true 2000 true true "  " = ⟨false, false, none, none⟩ :=
  ⟨by decide, typeMessage_blank_returns_false true 2000 true true "  " (by decide)⟩

/-- `_can_use_clipboard` characterised: the clipboard path is taken iff
the message has length ≥ 20, contains no special-key character, and is
either Chinese-heavy (> 30 %) or longer than 100 characters. -/
theorem canUseClipboard_iff (m : String) :
    canUseClipboard m = true ↔
      (20 ≤ m.length ∧
        (∀ c ∈ m.data, c ∉ specialKeyChars) ∧
        (3 * m.length < 10 * chineseCount m ∨ 100 < m.length)) := by
  unfold canUseClipboard
  by_cases h1 : m.length < 20
  · simp only [if_pos h1]
    constructor
    · intro h; cases h
    · rintro ⟨h, _, _⟩; omega
  · simp only [if_neg h1]
    by_cases h2 : (m.data.any fun c => specialKeyChars.contains c) = true
    · simp only [if_pos h2]
      rw [List.any_eq_true] at h2
      obtain ⟨c, hc, hcs⟩ := h2
      constructor
      · intro h; cases h
      · rintro ⟨_, hall, _⟩
        exact absurd (List.elem_iff.mp hcs) (hall c hc)
    · simp only [if_neg h2]
      have hall : ∀ c ∈ m.data, c ∉ specialKeyChars := by
        intro c hc hmem
        exact h2 (List.any_eq_true.mpr ⟨c, hc, List.elem_iff.mpr hmem⟩)
      by_cases h3 : 3 * m.length < 10 * chineseCount m
      · simp only [if_pos h3]
        exact ⟨fun _ => ⟨Nat.not_lt.mp h1, hall, Or.inl h3⟩, fun _ => trivial⟩
      · by_cases h4 : 100 < m.length
        · simp only [if_neg h3, if_pos h4]
          exact ⟨fun _ => ⟨Nat.not_lt.mp h1, hall, Or.inr h4⟩, fun _ => trivial⟩
        · simp only [if_neg h3, if_neg h4]
          constructor
          · intro h; cases h
          · rintro ⟨_, _, h5 | h5⟩
            · exact absurd h5 h3
            · exact absurd h5 h4

/-- C5 (counterexample): for the 29-character ASCII message below, which
contains no control character at all, `type_message` picks the incremental
per-character mode, not the bulk clipboard mode the claim requires for
every control-character-free text. -/
theorem clipboard_mode_claim_counterexample :
    (∀ c ∈ String.data "abcde fghij klmno pqrst uvwxy", isCtlChar c = false) ∧
    String.length "abcde fghij klmno pqrst uvwxy" ≤ 100 ∧
    (typeMessage true 2000 true true "abcde fghij klmno pqrst uvwxy").mode
      = some Mode.perChar := by
  refine ⟨by decide, by decide, by decide⟩

/-- C5 (amended): with the clipboard enabled (config default), the bulk
clipboard mode is chosen for a delivered message exactly when the cleaned
text has length ≥ 20, contains no special-key character (newline, tab,
backspace), and either has a Chinese-character share above 30 % or is
longer than 100 characters; every other delivered message uses the
incremental per-character mode. -/
theorem clipboard_mode_selection (maxLen : Nat) (injectOk : Bool) (m : String) :
    (typeMessage true maxLen true injectOk m).mode = some Mode.clipboard ↔
      (pyStrip m ≠ "" ∧
        20 ≤ (cleanMessage maxLen m).length ∧
        (∀ c ∈ (cleanMessage maxLen m).data, c ∉ specialKeyChars) ∧
        (3 * (cleanMessage maxLen m).length
            < 10 * chineseCount (cleanMessage maxLen m) ∨
          100 < (cleanMessage maxLen m).length)) := by
  by_cases hm : pyStrip m = ""
  · simp [typeMessage, hm]
  · have hmode : (typeMessage true maxLen true injectOk m).mode
        = some (if canUseClipboard (cleanMessage maxLen m) then Mode.clipboard
                else Mode.perChar) := by
      unfold typeMessage
      cases injectOk <;> simp [hm]
    rw [hmode]
    by_cases hc : canUseClipboard (cleanMessage maxLen m) = true
    · obtain ⟨ha, hb, hcc⟩ := (canUseClipboard_iff _).mp hc
      simp only [if_pos hc]
      exact ⟨fun _ => ⟨hm, ha, hb, hcc⟩, fun _ => trivial⟩
    · simp only [if_neg hc]
      constructor
      · intro h
        exact absurd (Option.some.inj h) (by intro h'; cases h')
      · rintro ⟨_, ha, hb, hcc⟩
        exact absurd ((canUseClipboard_iff _).mpr ⟨ha, hb, hcc⟩) hc

theorem collapseWsAux_head_nonspace :
    ∀ (l : List Char) (c : Char) (r : List Char),
      collapseWsAux l true = c :: r → pyIsSpace c = false := by
  intro l
  induction l with
  | nil => intro c r h; cases h
  | cons a t ih =>
    intro c r h
    unfold collapseWsAux at h
    by_cases ha : pyIsSpace a = true
    · simp only [if_pos ha] at h
      exact ih c r h
    · simp only [if_neg ha] at h
      cases h
      cases hh : pyIsSpace a
      · rfl
      · exact absurd hh ha

theorem noAdjacentSpaces_collapseWsAux :
    ∀ (l : List Char) (b : Bool), noAdjacentSpaces (collapseWsAux l b) = true := by
  intro l
  induction l with
  | nil => intro b; rfl
  | cons a t ih =>
    intro b
    unfold collapseWsAux
    by_cases ha : pyIsSpace a = true
    · simp only [if_pos ha]
      cases b
      · show noAdjacentSpaces (' ' :: collapseWsAux t true) = true
        cases h : collapseWsAux t true with
        | nil => rfl
        | cons d r =>
          have hd := collapseWsAux_head_nonspace t d r h
          unfold noAdjacentSpaces
          rw [← h]
          simp [hd, ih true]
      · exact ih true
    · simp only [if_neg ha]
      have ha' : pyIsSpace a = false := by
        cases h : pyIsSpace a
        · rfl
        · exact absurd h ha
      cases h : collapseWsAux t false with
      | nil => rfl
      | cons d r =>
        unfold noAdjacentSpaces
        rw [← h]
        simp [ha', ih false]

theorem collapseWsAux_space_eq_space :
    ∀ (l : List Char) (b : Bool) (c : Char), c ∈ collapseWsAux l b →
      pyIsSpace c = true → c = ' ' := by
  intro l
  induction l with
  | nil => intro b c h; cases h
  | cons a t ih =>
    intro b c h hsp
    unfold collapseWsAux at h
    by_cases ha : pyIsSpace a = true
    · simp only [if_pos ha] at h
      cases b
      · rcases List.mem_cons.mp h with h' | h'
        · exact h'
        · exact ih true c h' hsp
      · exact ih true c h hsp
    · simp only [if_neg ha] at h
      rcases List.mem_cons.mp h with h' | h'
      · subst h'; exact absurd hsp ha
      · exact ih false c h' hsp

theorem mem_of_mem_pyStrip {c : Char} {s : String}
    (h : c ∈ (pyStrip s).data) : c ∈ s.data := by
  unfold pyStrip at h
  simp only at h
  rw [List.mem_reverse] at h
  have h1 := (List.dropWhile_sublist pyIsSpace).mem h
  rw [List.mem_reverse] at h1
  exact (List.dropWhile_sublist pyIsSpace).mem h1

theorem mem_of_mem_truncateMsg {c : Char} {maxLen : Nat} {s : String}
    (h : c ∈ (truncateMsg maxLen s).data) : c ∈ s.data ∨ c = '.' := by
  unfold truncateMsg at h
  by_cases hl : maxLen < s.length
  · simp only [if_pos hl] at h
    have hap : (String.mk (s.data.take maxLen) ++ ("..." : String)).data
        = s.data.take maxLen ++ ("..." : String).data := rfl
    rw [hap, List.mem_append] at h
    rcases h with h | h
    · exact Or.inl ((List.take_sublist maxLen s.data).mem h)
    · right
      have : c ∈ ['.', '.', '.'] := h
      simpa using this
  · simp only [if_neg hl] at h
    exact Or.inl h

theorem removeCtl_no_ctl {c : Char} {s : String}
    (h : c ∈ (removeCtl s).data) : isCtlChar c = false := by
  unfold removeCtl at h
  have := (List.mem_filter.mp h).2
  simpa using this

/-- C10: the text actually injected is always the cleaned form of the
message — `type_message` injects `_clean_message(message)` in both modes —
and `_clean_message` behaves as claimed: its whitespace-collapsing stage
leaves no two adjacent whitespace characters and only plain spaces, its
output contains no disallowed control character, an over-long collapsed
message is cut at `maxLen` code points with `"..."` appended, and the
delivered text can differ from the committed content. -/
theorem typeMessage_injects_cleaned (useClip : Bool) (maxLen : Nat) (m : String)
    (hm : pyStrip m ≠ "") :
    (typeMessage useClip maxLen true true m).injected
        = some (cleanMessage maxLen m) ∧
    (∀ c ∈ (cleanMessage maxLen m).data, isCtlChar c = false) ∧
    noAdjacentSpaces (collapseWs m).data = true ∧
    (∀ c ∈ (collapseWs m).data, pyIsSpace c = true → c = ' ') ∧
    (maxLen < (removeCtl (collapseWs m)).length →
      cleanMessage maxLen m
        = pyStrip (String.mk ((removeCtl (collapseWs m)).data.take maxLen)
            ++ "...")) ∧
    cleanMessage 2000 "a  b" ≠ "a  b" := by
  refine ⟨?_, ?_, ?_, ?_, ?_, by decide⟩
  · unfold typeMessage
    simp [hm]
  · intro c hc
    have h1 := mem_of_mem_pyStrip hc
    rcases mem_of_mem_truncateMsg h1 with h2 | h2
    · exact removeCtl_no_ctl h2
    · subst h2; rfl
  · exact noAdjacentSpaces_collapseWsAux m.data false
  · exact fun c hc hsp => collapseWsAux_space_eq_space m.data false c hc hsp
  · intro hlen
    unfold cleanMessage truncateMsg
    simp [hlen]

/-- Witness for C10 at the concrete message `"hello   there"`: the
hypothesis holds and the injected text is the cleaned form. -/
theorem typeMessage_injects_cleaned_witness :
    pyStrip "hello   there" ≠ "" ∧
      (typeMessage true 2000 true true "hello   there").injected
        = some (cleanMessage 2000 "hello   there") :=
  ⟨by decide, (typeMessage_injects_cleaned true 2000 "hello   there" (by decide)).1⟩

/-- C6: when both OCR engines fail (or none is available), extraction
returns the empty string — the wrappers catch engine errors internally
and `extract_text`'s outer handler returns `""`, so no error reaches the
caller — and the polling loop treats an empty observation as "nothing
observed" and keeps polling. -/
theorem extractText_both_fail_empty :
    (∀ (easyAvail tessAvail : Bool) (thr : Nat),
      extractText easyAvail tessAvail thr none none = "") ∧
    (∀ last rest, waitForNewMessage last (some "" :: rest)
      = waitForNewMessage last rest) := by
  constructor
  · intro easyAvail tessAvail thr
    cases easyAvail <;> cases tessAvail <;> rfl
  · intro last rest
    have hc : (("" : String) ≠ "" && "" ≠ last && hasMeaningfulChange last "") = false := by
      simp
    simp [waitForNewMessage, hc]

/-- C4 (counterexample): a Tesseract result whose single span has
confidence 10 < 60 still yields that span's text — the fallback engine's
output is not span-filtered by confidence, while the same spans through
the EasyOCR path are all discarded. -/
theorem ocr_span_filter_counterexample :
    extractText false true 60 none (some ("hello world", [10])) = "hello world" ∧
    ("hello world" : String) ≠ "" ∧
    extractWithEasyocr 60 (some [("hello world", 10)]) = "" := by
  refine ⟨by decide, by decide, by decide⟩

/-- C4 (amended): only the EasyOCR path filters spans per confidence —
discarding its below-threshold spans changes nothing, because they never
reach the join — while the Tesseract path's output is independent of the
reported confidences, which feed only a logged warning. -/
theorem ocr_confidence_filtering :
    (∀ (thr : Nat) (spans : List (String × Nat)),
      extractWithEasyocr thr (some spans)
        = extractWithEasyocr thr (some (spans.filter (fun sp => thr ≤ sp.2)))) ∧
    (∀ (t : String) (confs confs' : List Int),
      extractWithTesseract (some (t, confs))
        = extractWithTesseract (some (t, confs'))) := by
  constructor
  · intro thr spans
    unfold extractWithEasyocr
    dsimp only
    rw [List.filter_filter]
    simp
  · intro t confs confs'
    rfl

/-- C1 (counterexample): after a per-turn window with no accepted change
(two ticks of the too-short text "hi"), the loop neither aborts nor stops:
the very next iteration polls the same speaker again and commits a turn,
so `turnCount` later becomes 1 — there is no Aborted transition on
timeout. -/
theorem timeout_no_abort_counterexample :
    waitForNewMessage "" [some "hi", some "hi"] = none ∧
    bridgeRun 50 ⟨Speaker.left, "", "", 0⟩
        [⟨[some "hi", some "hi"], true⟩,
          ⟨[some "hello wonderful world of oranges"], true⟩]
      = (⟨Speaker.right, "hello wonderful world of oranges", "", 1⟩,
          ["hello wonderful world of oranges"]) := by
  refine ⟨by decide, by decide⟩

/-- C1 (amended): when the per-turn timeout elapses with no accepted
change, `wait_for_new_message` returns `None` and the iteration commits
nothing — state (including `turnCount` and the expected speaker) is
unchanged, nothing is delivered, and the loop does not break: it simply
keeps waiting for the same speaker. -/
theorem timeout_keeps_polling (s : BridgeState) (env : IterEnv)
    (h : waitForNewMessage (lastContentOf s) env.ticks = none) :
    bridgeIter s env = ⟨s, false, none⟩ := by
  unfold bridgeIter
  rw [h]

/-- Witness for C1's amended claim: a concrete timed-out window. -/
theorem timeout_keeps_polling_witness :
    waitForNewMessage (lastContentOf ⟨Speaker.left, "", "", 0⟩) [some "hi"] = none ∧
    bridgeIter ⟨Speaker.left, "", "", 0⟩ ⟨[some "hi"], true⟩
      = ⟨⟨Speaker.left, "", "", 0⟩, false, none⟩ :=
  ⟨by decide,
    timeout_keeps_polling ⟨Speaker.left, "", "", 0⟩ ⟨[some "hi"], true⟩ (by decide)⟩

/-- C2 (counterexample): the loop delivers the same extracted content
twice in one session — both observations extract to the identical reply,
both are handed to the Actuator, and the speaker flips each time — so no
Ledger duplicate check precedes delivery. -/
theorem duplicate_turn_counterexample :
    extractLatestReply "hello wonderful world of oranges"
      = some "hello wonderful world of oranges" ∧
    extractLatestReply "hello wonderful world of oranges\nok"
      = some "hello wonderful world of oranges" ∧
    bridgeRun 50 ⟨Speaker.left, "", "", 0⟩
        [⟨[some "hello wonderful world of oranges"], true⟩,
          ⟨[some "hello wonderful world of oranges\nok"], true⟩]
      = (⟨Speaker.left, "hello wonderful world of oranges",
            "hello wonderful world of oranges\nok", 2⟩,
          ["hello wonderful world of oranges",
            "hello wonderful world of oranges"]) := by
  refine ⟨by decide, by decide, by decide⟩

/-- C2 (amended): the orchestration loop performs no duplicate check —
whatever turn the extractor yields is handed to the Actuator,
unconditionally on any ledger — while the fingerprint deduplication lives
only in `ConversationManager.add_message` (which drops a duplicate and
returns `False`) and is never invoked by the loop. -/
theorem loop_no_dedup_ledger_dedup :
    (∀ (s : BridgeState) (env : IterEnv),
      (bridgeIter s env).actuated
        = (waitForNewMessage (lastContentOf s) env.ticks).bind extractLatestReply) ∧
    (∀ (ledger : List String) (content : String),
      calculateMessageHash content ∈ ledger →
        addMessage ledger content = (false, ledger)) := by
  constructor
  · intro s env
    unfold bridgeIter
    cases hw : waitForNewMessage (lastContentOf s) env.ticks with
    | none => rfl
    | some msg =>
      cases he : extractLatestReply msg with
      | none => simp [he]
      | some reply =>
        cases hf : env.forwardOk <;> simp [he, hf]
  · intro ledger content hmem
    have hdup : isDuplicateMessage ledger (calculateMessageHash content) = true := by
      unfold isDuplicateMessage
      exact List.elem_iff.mpr hmem
    unfold addMessage
    simp [hdup]

/-- Witness for C2's amended claim at concrete inputs: a non-null extract
is actuated, and a duplicate hash is dropped without growing the ledger. -/
theorem loop_no_dedup_ledger_dedup_witness :
    (bridgeIter ⟨Speaker.left, "", "", 0⟩
        ⟨[some "hello wonderful world of oranges"], true⟩).actuated
      = (waitForNewMessage "" [some "hello wonderful world of oranges"]).bind
          extractLatestReply ∧
    (calculateMessageHash "abc" ∈ ["abc"] ∧
      addMessage ["abc"] "abc" = (false, ["abc"])) :=
  ⟨loop_no_dedup_ledger_dedup.1 ⟨Speaker.left, "", "", 0⟩
      ⟨[some "hello wonderful world of oranges"], true⟩,
    by decide,
    loop_no_dedup_ledger_dedup.2 ["abc"] "abc" (by decide)⟩

theorem setLast_speaker (s : BridgeState) (msg : String) :
    (setLast s msg).speaker = s.speaker := by
  unfold setLast
  cases s.speaker <;> rfl

theorem setLast_turn (s : BridgeState) (msg : String) :
    (setLast s msg).turn = s.turn := by
  unfold setLast
  cases s.speaker <;> rfl

theorem flipSpeaker_ne (x : Speaker) : flipSpeaker x ≠ x := by
  cases x <;> simp [flipSpeaker]

theorem flipSpeaker_involutive (x : Speaker) : flipSpeaker (flipSpeaker x) = x := by
  cases x <;> rfl

/-- Each loop iteration either commits nothing (state untouched apart
from the remembered last content) or commits exactly one turn
(`turnCount` + 1, speaker flipped, loop continuing). -/
theorem bridgeIter_dichotomy (s : BridgeState) (env : IterEnv) :
    ((bridgeIter s env).state.turn = s.turn ∧
      (bridgeIter s env).state.speaker = s.speaker) ∨
    ((bridgeIter s env).state.turn = s.turn + 1 ∧
      (bridgeIter s env).state.speaker = flipSpeaker s.speaker ∧
      (bridgeIter s env).brk = false) := by
  unfold bridgeIter
  cases hw : waitForNewMessage (lastContentOf s) env.ticks with
  | none => exact Or.inl ⟨rfl, rfl⟩
  | some msg =>
    cases he : extractLatestReply msg with
    | none =>
      left
      constructor
      · simp only [he]
        exact setLast_turn s msg
      · simp only [he]
        exact setLast_speaker s msg
    | some reply =>
      cases hf : env.forwardOk with
      | false =>
        left
        constructor
        · simp only [he, hf, Bool.false_eq_true, if_false]
          exact setLast_turn s msg
        · simp only [he, hf, Bool.false_eq_true, if_false]
          exact setLast_speaker s msg
      | true =>
        right
        refine ⟨?_, ?_, ?_⟩ <;> simp [he, hf]

/-- Run invariant: the turn counter never decreases and the expected
speaker is determined by the parity of the turns committed since entry. -/
theorem bridgeRun_parity (envs : List IterEnv) :
    ∀ (maxTurns : Nat) (s : BridgeState),
      s.turn ≤ (bridgeRun maxTurns s envs).1.turn ∧
      (bridgeRun maxTurns s envs).1.speaker
        = (if ((bridgeRun maxTurns s envs).1.turn - s.turn) % 2 = 0 then s.speaker
            else flipSpeaker s.speaker) := by
  induction envs with
  | nil =>
    intro mt s
    exact ⟨Nat.le_refl _, by simp [bridgeRun]⟩
  | cons e es ih =>
    intro mt s
    unfold bridgeRun
    by_cases hlt : s.turn < mt
    · simp only [if_pos hlt]
      cases hbrk : (bridgeIter s e).brk with
      | true =>
        rcases bridgeIter_dichotomy s e with ⟨ht, hs⟩ | ⟨_, _, hb⟩
        · simp only [hbrk, if_true]
          exact ⟨Nat.le_of_eq ht.symm, by simp [ht, hs]⟩
        · rw [hb] at hbrk
          cases hbrk
      | false =>
        simp only [hbrk, Bool.false_eq_true, if_false]
        obtain ⟨hle, hsp⟩ := ih mt (bridgeIter s e).state
        rcases bridgeIter_dichotomy s e with ⟨ht, hs⟩ | ⟨ht, hs, _⟩
        · rw [ht] at hle
          rw [ht, hs] at hsp
          exact ⟨hle, hsp⟩
        · rw [ht] at hle
          rw [ht, hs] at hsp
          refine ⟨Nat.le_trans (Nat.le_succ _) hle, ?_⟩
          set T := (bridgeRun mt (bridgeIter s e).state es).1.turn with hT
          by_cases hpar : (T - (s.turn + 1)) % 2 = 0
          · have h1 : ¬((T - s.turn) % 2 = 0) := by omega
            rw [if_pos hpar] at hsp
            rw [if_neg h1]
            exact hsp
          · have h1 : (T - s.turn) % 2 = 0 := by omega
            rw [if_neg hpar] at hsp
            rw [if_pos h1]
            rw [hsp, flipSpeaker_involutive]
    · simp only [if_neg hlt]
      exact ⟨Nat.le_refl _, by simp⟩

/-- C3: the expected speaker toggles strictly with exactly one committed
turn between flips — an iteration either leaves both `turnCount` and the
speaker unchanged, or increments `turnCount` by exactly 1 while flipping
the speaker, and it flips the speaker iff it committed — and a run
started with `expectedSpeaker = left` and `turnCount = 0` always has
speaker `left` after an even number of commits and `right` after an odd
one (after N commits, `turnCount` is exactly N). -/
theorem turn_alternation :
    (∀ (s : BridgeState) (env : IterEnv),
      ((bridgeIter s env).state.turn = s.turn ∧
        (bridgeIter s env).state.speaker = s.speaker) ∨
      ((bridgeIter s env).state.turn = s.turn + 1 ∧
        (bridgeIter s env).state.speaker = flipSpeaker s.speaker)) ∧
    (∀ (s : BridgeState) (env : IterEnv),
      ((bridgeIter s env).state.speaker ≠ s.speaker ↔
        (bridgeIter s env).state.turn = s.turn + 1)) ∧
    (∀ (maxTurns : Nat) (envs : List IterEnv),
      (bridgeRun maxTurns ⟨Speaker.left, "", "", 0⟩ envs).1.speaker
        = (if (bridgeRun maxTurns ⟨Speaker.left, "", "", 0⟩ envs).1.turn % 2 = 0
            then Speaker.left else Speaker.right)) := by
  refine ⟨?_, ?_, ?_⟩
  · intro s env
    rcases bridgeIter_dichotomy s env with ⟨ht, hs⟩ | ⟨ht, hs, _⟩
    · exact Or.inl ⟨ht, hs⟩
    · exact Or.inr ⟨ht, hs⟩
  · intro s env
    rcases bridgeIter_dichotomy s env with ⟨ht, hs⟩ | ⟨ht, hs, _⟩
    · constructor
      · intro hne
        exact absurd hs hne
      · intro h1
        rw [ht] at h1
        omega
    · constructor
      · intro _
        exact ht
      · intro _
        rw [hs]
        exact flipSpeaker_ne s.speaker
  · intro maxTurns envs
    have h := (bridgeRun_parity envs maxTurns ⟨Speaker.left, "", "", 0⟩).2
    simpa using h

end ChatBridge
